import Mathlib

/-!
# Verification of the living-lab-visualize table pipeline

A shallow embedding of the data pipeline in `src/common.py` and the coverage
grid of `src/bandwidth.py`, with theorems settling the specification's claims.

Modelling conventions:
* Timestamps are natural numbers counting minutes (in the concrete scenarios,
  minutes since 2023-01-01T00:00:00Z).  `pandas.Timestamp.floor('H')` becomes
  `floorHour`, which zeroes the minutes within the hour.
* A pandas `DataFrame` with a `MultiIndex` is an association list from the
  composite key to the row of value columns; after `reindex` the row is an
  `Option` (missing entries, i.e. all-NaN rows, are `none`).
* Numeric value columns (bandwidth, jitter, latency) are rationals, so the
  `/1000` rescale in `get_latency_dataframe` is exact division.
* `requests` responses are modelled by the sequence of pages the server serves;
  `raise_for_status` raises exactly for status codes in `[400, 600)`.
-/

namespace LivingLab

/-- Direction of a bandwidth test.  The API contract only ever supplies
`up` or `down` (`src/common.py` line 102). -/
inductive Direction : Type
  | up : Direction
  | down : Direction
deriving DecidableEq, Repr

/-- `pandas.Timestamp.floor('H')` on a timestamp measured in minutes:
drop the minutes within the hour. -/
def floorHour (t : Nat) : Nat := 60 * (t / 60)

/-- One raw bandwidth record as returned by the `/iperf3/` endpoint
(fields used by `get_bandwidth_dataframe`). -/
structure BandwidthRecord : Type where
  id : Nat
  nanopi : Nat
  direction : Direction
  bandwidth : ℚ
  upload_date : Nat
deriving DecidableEq, Repr

/-- The value columns of one row of the bandwidth dataframe
(`id`, `bandwidth`, `upload_date`). -/
structure BandwidthRow : Type where
  id : Nat
  bandwidth : ℚ
  upload_date : Nat
deriving DecidableEq, Repr

/-- Composite key of the bandwidth dataframe:
(hour-floored datetime, nanopi id, direction). -/
abbrev BKey : Type := Nat × Nat × Direction

/-- `df.loc[~df.index.duplicated(keep='last'), :]` (common.py line 92):
keep only those positions whose key does not occur again later, i.e. the
last occurrence of every key, in original order. -/
def dedupKeepLast {κ ρ : Type} [DecidableEq κ] : List (κ × ρ) → List (κ × ρ)
  | [] => []
  | kv :: rest =>
    if kv.1 ∈ rest.map Prod.fst then dedupKeepLast rest
    else kv :: dedupKeepLast rest

/-- `pd.date_range(start, end=stop, freq='H')` for hour-aligned endpoints
(minutes): `start, start+60, …` up to `stop`; empty when `start > stop`. -/
def hourRange (start stop : Nat) : List Nat :=
  if start ≤ stop then (List.range ((stop - start) / 60 + 1)).map (fun i => start + 60 * i)
  else []

/-- `df1.reindex(index=new_index)` for a `df1` with unique keys: one output
row per key of `new_index`, holding `df1`'s row when the key matches and an
all-NaN (missing) row otherwise.  Keys of `df1` outside `new_index` are
dropped. -/
def reindex {κ ρ : Type} [DecidableEq κ] (dense : List κ) (table : List (κ × ρ)) :
    List (κ × Option ρ) :=
  dense.map (fun k => (k, (table.find? (fun kv => decide (kv.1 = k))).map Prod.snd))

/-- The `['up', 'down']` direction level of the dense index
(common.py line 101). -/
def directions : List Direction := [Direction.up, Direction.down]

/-- The initial bandwidth dataframe (common.py lines 79-88): one row per
record, keyed by (hour-floored upload date, nanopi, direction), carrying
`id`, `bandwidth` and the raw `upload_date`. -/
def bandwidthKeyed (records : List BandwidthRecord) : List (BKey × BandwidthRow) :=
  records.map (fun r =>
    ((floorHour r.upload_date, r.nanopi, r.direction),
     { id := r.id, bandwidth := r.bandwidth, upload_date := r.upload_date }))

/-- `set(df.index.get_level_values('nanopi'))` (common.py line 100): the
distinct device ids of the raw records. -/
def bandwidthDevices (records : List BandwidthRecord) : List Nat :=
  (records.map (fun r => r.nanopi)).dedup

/-- `df.index.get_level_values('datetime')[0]` (common.py line 96): the
hour-floored upload date of the FIRST record in list order. -/
def bandwidthStart (r0 : BandwidthRecord) : Nat := floorHour r0.upload_date

/-- `df.index.get_level_values('datetime')[-1]` (common.py line 97): the
hour-floored upload date of the LAST record in list order. -/
def bandwidthStop (r0 : BandwidthRecord) (rest : List BandwidthRecord) : Nat :=
  floorHour (rest.getLastD r0).upload_date

/-- `pd.MultiIndex.from_product(iterables)` (common.py lines 98-103): the
cartesian product hourly-range × devices × directions, last level varying
fastest. -/
def bandwidthDenseIndex (r0 : BandwidthRecord) (rest : List BandwidthRecord) : List BKey :=
  (hourRange (bandwidthStart r0) (bandwidthStop r0 rest)) ×ˢ
    ((bandwidthDevices (r0 :: rest)) ×ˢ directions)

/-- `get_bandwidth_dataframe` (common.py lines 66-106), from the raw record
list on: key, de-duplicate keeping the last occurrence, then reindex against
the dense product index.  On an empty record list the original raises
(indexing an empty index), modelled as `none`. -/
def get_bandwidth_dataframe :
    List BandwidthRecord → Option (List (BKey × Option BandwidthRow))
  | [] => none
  | r0 :: rest =>
    some (reindex (bandwidthDenseIndex r0 rest) (dedupKeepLast (bandwidthKeyed (r0 :: rest))))

/-- One raw jitter record as returned by the `/jitter/` endpoint. -/
structure JitterRecord : Type where
  id : Nat
  nanopi : Nat
  jitter : ℚ
  upload_date : Nat
deriving DecidableEq, Repr

/-- The value columns of one row of the jitter dataframe. -/
structure JitterRow : Type where
  id : Nat
  jitter : ℚ
  upload_date : Nat
deriving DecidableEq, Repr

/-- Composite key of the jitter, latency and ping dataframes:
(datetime, nanopi id). -/
abbrev NKey : Type := Nat × Nat

/-- The initial jitter dataframe (common.py lines 122-131). -/
def jitterKeyed (records : List JitterRecord) : List (NKey × JitterRow) :=
  records.map (fun r =>
    ((floorHour r.upload_date, r.nanopi),
     { id := r.id, jitter := r.jitter, upload_date := r.upload_date }))

/-- `set(df.index.get_level_values('nanopi'))` for jitter records. -/
def jitterDevices (records : List JitterRecord) : List Nat :=
  (records.map (fun r => r.nanopi)).dedup

/-- `get_jitter_dataframe` (common.py lines 109-148), from the raw record
list on.  `none` models the crash on an empty record list. -/
def get_jitter_dataframe :
    List JitterRecord → Option (List (NKey × Option JitterRow))
  | [] => none
  | r0 :: rest =>
    some (reindex
      ((hourRange (floorHour r0.upload_date) (floorHour (rest.getLastD r0).upload_date)) ×ˢ
        jitterDevices (r0 :: rest))
      (dedupKeepLast (jitterKeyed (r0 :: rest))))

/-- One raw latency record as returned by the `/sockperf/` endpoint. -/
structure LatencyRecord : Type where
  id : Nat
  nanopi : Nat
  latency : ℚ
  upload_date : Nat
deriving DecidableEq, Repr

/-- The value columns of one row of the latency dataframe. -/
structure LatencyRow : Type where
  id : Nat
  latency : ℚ
  upload_date : Nat
deriving DecidableEq, Repr

/-- The initial latency dataframe before rescaling (common.py lines 165-174). -/
def latencyKeyed (records : List LatencyRecord) : List (NKey × LatencyRow) :=
  records.map (fun r =>
    ((floorHour r.upload_date, r.nanopi),
     { id := r.id, latency := r.latency, upload_date := r.upload_date }))

/-- `df.loc[:, 'latency'] = df.loc[:, 'latency']/1000` (common.py line 175). -/
def latencyScaled (table : List (NKey × LatencyRow)) : List (NKey × LatencyRow) :=
  table.map (fun kv => (kv.1, { kv.2 with latency := kv.2.latency / 1000 }))

/-- `set(df.index.get_level_values('nanopi'))` for latency records. -/
def latencyDevices (records : List LatencyRecord) : List Nat :=
  (records.map (fun r => r.nanopi)).dedup

/-- `get_latency_dataframe` (common.py lines 151-192), from the raw record
list on: key, divide the latency column by 1000, de-duplicate, reindex.
`none` models the crash on an empty record list. -/
def get_latency_dataframe :
    List LatencyRecord → Option (List (NKey × Option LatencyRow))
  | [] => none
  | r0 :: rest =>
    some (reindex
      ((hourRange (floorHour r0.upload_date) (floorHour (rest.getLastD r0).upload_date)) ×ˢ
        latencyDevices (r0 :: rest))
      (dedupKeepLast (latencyScaled (latencyKeyed (r0 :: rest)))))

/-- One raw ping record as returned by the `/ping/` endpoint.  `time` is the
observation timestamp; `upload_date` the upload timestamp. -/
structure PingRecord : Type where
  id : Nat
  nanopi : Nat
  state : String
  upload_date : Nat
  time : Nat
deriving DecidableEq, Repr

/-- The value columns of one row of the ping dataframe. -/
structure PingRow : Type where
  id : Nat
  state : String
  upload_date : Nat
deriving DecidableEq, Repr

/-- `pd.Timestamp(...).tz_convert(TIMEZONE)` (common.py line 211): converting
the display timezone leaves the underlying instant unchanged, so on our
instant-valued timestamps it is the identity. -/
def tzConvert (t : Nat) : Nat := t

/-- `get_ping_dataframe` (common.py lines 195-221), from the raw record list
on: one row per record keyed by (timezone-converted observation `time`,
nanopi).  No hour-flooring, no de-duplication, no reindexing. -/
def get_ping_dataframe (records : List PingRecord) : List (NKey × PingRow) :=
  records.map (fun r =>
    ((tzConvert r.time, r.nanopi),
     { id := r.id, state := r.state, upload_date := r.upload_date }))

/-- Keep only the non-missing entries of a reindexed table
(the pre-reindex rows that survived, `df2.dropna`). -/
def nonMissing {κ ρ : Type} (table : List (κ × Option ρ)) : List (κ × ρ) :=
  table.filterMap (fun kv => kv.2.map (fun r => (kv.1, r)))

/-- Modelled from the spec (for comparison with the code's index): the dense
key set as §8 of the spec describes it, hours ranging from the MINIMUM to the
MAXIMUM hour-floored observed timestamp. -/
def specMinMaxIndex (records : List BandwidthRecord) : List BKey :=
  match records.map (fun r => floorHour r.upload_date) with
  | [] => []
  | h :: hs =>
    (hourRange ((h :: hs).foldr min h) ((h :: hs).foldr max h)) ×ˢ
      (((records.map (fun r => r.nanopi)).dedup) ×ˢ directions)

/-- `bool(x)` after `fillna(value=False)` (bandwidth.py line 237): a missing
cell becomes `False`; a present cell becomes the truthiness of its float
value, which is `False` exactly for `0.0`. -/
def coverageCell (o : Option BandwidthRow) : Bool :=
  match o with
  | none => false
  | some row => decide (row.bandwidth ≠ 0)

/-- The boolean coverage grid computed by `plot_coverage` (bandwidth.py
line 237) and fed cell-by-cell to `imshow`; the drawing itself is not
modelled.  White (`true`) is rendered "present", black (`false`)
"missing". -/
def plot_coverage (table : List (BKey × Option BandwidthRow)) : List (BKey × Bool) :=
  table.map (fun kv => (kv.1, coverageCell kv.2))

/-- One page served by a paginated list endpoint: HTTP status of the
response, the JSON body's `results` array and its `next` field
(`none` models JSON `null`). -/
structure ApiPage (α : Type) : Type where
  status : Nat
  results : List α
  next : Option String
deriving DecidableEq, Repr

/-- One HTTP GET issued by `get_from_api`: target URL and the query
parameters attached to it (`none` when no `params` argument is passed). -/
structure ApiRequest (π : Type) : Type where
  url : String
  params : Option π
deriving DecidableEq, Repr

/-- Python truthiness of a JSON `next` field: `null` and the empty string
are falsy, any other string truthy. -/
def truthy : Option String → Bool
  | none => false
  | some s => decide (s ≠ "")

/-- `response.raise_for_status()` raises exactly for status codes in
`[400, 600)`. -/
def raisesStatus (s : Nat) : Bool := decide (400 ≤ s ∧ s < 600)

/-- `get_from_api` (common.py lines 20-49) run against the sequence of pages
the server serves to its successive requests.  Returns the list of requests
issued (first with the caller's `params`, follow-ups to the `next` URL
without them) and either the accumulated `results` or the status of the
first raising response.  An exhausted page sequence with a request still
pending is outside the model and returns the results gathered so far. -/
def get_from_api {π α : Type} (url : String) (params : Option π) :
    List (ApiPage α) → List (ApiRequest π) × Except Nat (List α)
  | [] => ([{ url := url, params := params }], Except.ok [])
  | p :: ps =>
    if raisesStatus p.status then
      ([{ url := url, params := params }], Except.error p.status)
    else if truthy p.next then
      let rest := get_from_api (p.next.getD "") none ps
      ({ url := url, params := params } :: rest.1,
       match rest.2 with
       | Except.error e => Except.error e
       | Except.ok rs => Except.ok (p.results ++ rs))
    else
      ([{ url := url, params := params }], Except.ok p.results)

/-- A page sequence consistent with the pagination protocol: nonempty, every
page before the last announces a truthy `next`, and the last page's `next`
is falsy. -/
def wellFormed {α : Type} : List (ApiPage α) → Bool
  | [] => false
  | [p] => ! truthy p.next
  | p :: q :: ps => truthy p.next && wellFormed (q :: ps)

/-!
## Helper lemmas
-/

theorem mem_of_mem_dedupKeepLast {κ ρ : Type} [DecidableEq κ] :
    ∀ {l : List (κ × ρ)} {kv : κ × ρ}, kv ∈ dedupKeepLast l → kv ∈ l
  | [], _, h => by simp [dedupKeepLast] at h
  | x :: rest, kv, h => by
    by_cases hx : x.1 ∈ rest.map Prod.fst
    · have h' : kv ∈ dedupKeepLast rest := by simpa [dedupKeepLast, hx] using h
      exact List.mem_cons_of_mem _ (mem_of_mem_dedupKeepLast h')
    · rcases (by simpa [dedupKeepLast, hx] using h : kv = x ∨ kv ∈ dedupKeepLast rest) with h' | h'
      · exact h' ▸ List.mem_cons_self _ _
      · exact List.mem_cons_of_mem _ (mem_of_mem_dedupKeepLast h')

theorem key_mem_of_mem_dedupKeepLast {κ ρ : Type} [DecidableEq κ] {l : List (κ × ρ)}
    {kv : κ × ρ} (h : kv ∈ dedupKeepLast l) : kv.1 ∈ l.map Prod.fst :=
  List.mem_map_of_mem Prod.fst (mem_of_mem_dedupKeepLast h)

theorem nodup_keys_dedupKeepLast {κ ρ : Type} [DecidableEq κ] :
    ∀ (l : List (κ × ρ)), ((dedupKeepLast l).map Prod.fst).Nodup
  | [] => by simp [dedupKeepLast]
  | x :: rest => by
    by_cases hx : x.1 ∈ rest.map Prod.fst
    · simpa [dedupKeepLast, hx] using nodup_keys_dedupKeepLast rest
    · have hnotin : x.1 ∉ (dedupKeepLast rest).map Prod.fst := by
        intro hmem
        rcases List.mem_map.mp hmem with ⟨kv, hkv, hfst⟩
        exact hx (hfst ▸ key_mem_of_mem_dedupKeepLast hkv)
      have : ((x :: dedupKeepLast rest).map Prod.fst).Nodup := by
        rw [List.map_cons]
        exact List.Nodup.cons hnotin (nodup_keys_dedupKeepLast rest)
      simpa [dedupKeepLast, hx] using this

theorem mem_dedupKeepLast_iff {κ ρ : Type} [DecidableEq κ] :
    ∀ (l : List (κ × ρ)) (kv : κ × ρ),
      kv ∈ dedupKeepLast l ↔
        l.reverse.find? (fun x => decide (x.1 = kv.1)) = some kv
  | [], kv => by simp [dedupKeepLast]
  | x :: rest, kv => by
    have ih := mem_dedupKeepLast_iff rest kv
    rw [List.reverse_cons, List.find?_append]
    by_cases hx : x.1 ∈ rest.map Prod.fst
    · rw [show dedupKeepLast (x :: rest) = dedupKeepLast rest from by simp [dedupKeepLast, hx]]
      rw [ih]
      cases hfind : rest.reverse.find? (fun y => decide (y.1 = kv.1)) with
      | some y => simp
      | none =>
        have hall : ∀ z ∈ rest, z.1 ≠ kv.1 := by
          intro z hz
          have := List.find?_eq_none.mp hfind z (List.mem_reverse.mpr hz)
          simpa using this
        rw [Option.none_or]
        constructor
        · intro hfalse
          exact absurd hfalse (by simp)
        · intro hsome
          exfalso
          have hkvx : kv = x := by simpa using List.mem_of_find?_eq_some hsome
          rcases List.mem_map.mp hx with ⟨z, hz, hzx⟩
          exact hall z hz (hzx.trans (hkvx ▸ rfl))
    · rw [show dedupKeepLast (x :: rest) = x :: dedupKeepLast rest from by simp [dedupKeepLast, hx]]
      have hnone : ∀ k, k = x.1 → rest.reverse.find? (fun y => decide (y.1 = k)) = none := by
        intro k hk
        apply List.find?_eq_none.mpr
        intro z hz
        simp only [decide_eq_true_eq]
        intro hzx
        exact hx ((hk ▸ hzx : z.1 = x.1) ▸ List.mem_map_of_mem Prod.fst (List.mem_reverse.mp hz))
      by_cases hk : x.1 = kv.1
      · rw [hnone kv.1 hk.symm, Option.none_or]
        rw [List.find?_cons_of_pos _ (by simpa using hk)]
        simp only [List.mem_cons, Option.some.injEq]
        constructor
        · rintro (h | h)
          · exact h.symm
          · exfalso
            exact hx (hk ▸ key_mem_of_mem_dedupKeepLast h)
        · intro h
          exact Or.inl h.symm
      · rw [List.find?_cons_of_neg _ (by simpa using hk), List.find?_nil, Option.or_none]
        rw [← ih]
        simp only [List.mem_cons]
        constructor
        · rintro (h | h)
          · exact absurd (congrArg Prod.fst h) (fun e => hk (e.symm))
          · exact h
        · exact Or.inr

theorem find?_key_eq_some_iff {κ ρ : Type} [DecidableEq κ] :
    ∀ {l : List (κ × ρ)}, (l.map Prod.fst).Nodup → ∀ {k : κ} {kv : κ × ρ},
      (l.find? (fun x => decide (x.1 = k)) = some kv ↔ kv ∈ l ∧ kv.1 = k)
  | [], _, k, kv => by simp
  | x :: rest, hnd, k, kv => by
    rw [List.map_cons, List.nodup_cons] at hnd
    by_cases hk : x.1 = k
    · rw [List.find?_cons_of_pos _ (by simpa using hk)]
      simp only [Option.some.injEq, List.mem_cons]
      constructor
      · rintro rfl
        exact ⟨Or.inl rfl, hk⟩
      · rintro ⟨h | h, hkvk⟩
        · exact h.symm
        · exact absurd (hkvk.trans hk.symm ▸ List.mem_map_of_mem Prod.fst h) hnd.1
    · rw [List.find?_cons_of_neg _ (by simpa using hk)]
      rw [find?_key_eq_some_iff hnd.2]
      simp only [List.mem_cons]
      constructor
      · rintro ⟨h, hkvk⟩
        exact ⟨Or.inr h, hkvk⟩
      · rintro ⟨h | h, hkvk⟩
        · exact absurd (h ▸ hkvk) hk
        · exact ⟨h, hkvk⟩

theorem mem_nonMissing_reindex {κ ρ : Type} [DecidableEq κ]
    (dense : List κ) (tbl : List (κ × ρ)) (kv : κ × ρ) :
    kv ∈ nonMissing (reindex dense tbl) ↔
      kv.1 ∈ dense ∧ tbl.find? (fun x => decide (x.1 = kv.1)) = some kv := by
  unfold nonMissing reindex
  rw [List.filterMap_map, List.mem_filterMap]
  constructor
  · rintro ⟨k, hk, heq⟩
    simp only [Function.comp] at heq
    rcases hfind : tbl.find? (fun x => decide (x.1 = k)) with _ | y
    · rw [hfind] at heq
      simp at heq
    · rw [hfind] at heq
      simp only [Option.map_some', Option.some.injEq] at heq
      have hy : y.1 = k := by simpa using List.find?_some hfind
      have hkvy : kv = y := by
        rw [← heq, ← hy]
      subst hkvy
      exact ⟨hy ▸ hk, by rw [hy]; exact hfind⟩
  · rintro ⟨hmem, hfind⟩
    refine ⟨kv.1, hmem, ?_⟩
    simp only [Function.comp]
    rw [hfind]
    simp

theorem map_fst_reindex {κ ρ : Type} [DecidableEq κ] (dense : List κ) (tbl : List (κ × ρ)) :
    (reindex dense tbl).map Prod.fst = dense := by
  unfold reindex
  rw [List.map_map]
  have hcomp : (Prod.fst ∘ fun k : κ =>
      (k, (tbl.find? (fun kv => decide (kv.1 = k))).map Prod.snd)) = id := rfl
  rw [hcomp, List.map_id]

theorem length_reindex {κ ρ : Type} [DecidableEq κ] (dense : List κ) (tbl : List (κ × ρ)) :
    (reindex dense tbl).length = dense.length := by
  unfold reindex
  rw [List.length_map]

theorem mem_hourRange_of {a b t : Nat} (h1 : a ≤ t) (h2 : t ≤ b) (hd : 60 ∣ (t - a)) :
    t ∈ hourRange a b := by
  unfold hourRange
  rw [if_pos (le_trans h1 h2)]
  rcases hd with ⟨c, hc⟩
  refine List.mem_map.mpr ⟨c, List.mem_range.mpr ?_, ?_⟩
  · omega
  · omega

theorem nodup_hourRange (a b : Nat) : (hourRange a b).Nodup := by
  unfold hourRange
  split
  · exact List.Nodup.map (fun i j h => by omega) (List.nodup_range _)
  · exact List.nodup_nil

theorem get_from_api_cons {π α : Type} (url : String) (params : Option π)
    (p : ApiPage α) (ps : List (ApiPage α)) :
    get_from_api url params (p :: ps) =
      if raisesStatus p.status then
        ([{ url := url, params := params }], Except.error p.status)
      else if truthy p.next then
        ({ url := url, params := params } :: (get_from_api (p.next.getD "") (none : Option π) ps).1,
         match (get_from_api (p.next.getD "") (none : Option π) ps).2 with
         | Except.error e => Except.error e
         | Except.ok rs => Except.ok (p.results ++ rs))
      else ([{ url := url, params := params }], Except.ok p.results) := rfl

theorem get_from_api_ok {π α : Type} :
    ∀ (pages : List (ApiPage α)) (url : String) (params : Option π),
      wellFormed pages = true → (∀ p ∈ pages, raisesStatus p.status = false) →
      (get_from_api url params pages).2 = Except.ok (pages.map ApiPage.results).flatten
  | [], url, params, hwf, _ => by simp [wellFormed] at hwf
  | [p], url, params, hwf, hok => by
    have hnx : truthy p.next = false := by simpa [wellFormed] using hwf
    have hs : raisesStatus p.status = false := hok p (List.mem_singleton_self p)
    rw [get_from_api_cons, if_neg (by simp [hs]), if_neg (by simp [hnx])]
    simp
  | p :: q :: ps, url, params, hwf, hok => by
    have hwf' : truthy p.next = true ∧ wellFormed (q :: ps) = true := by
      simpa [wellFormed] using hwf
    have hs : raisesStatus p.status = false := hok p (List.mem_cons_self _ _)
    have ih := get_from_api_ok (q :: ps) (p.next.getD "") (none : Option π) hwf'.2
      (fun r hr => hok r (List.mem_cons_of_mem _ hr))
    rw [get_from_api_cons, if_neg (by simp [hs]), if_pos hwf'.1]
    show (match (get_from_api (p.next.getD "") (none : Option π) (q :: ps)).2 with
      | Except.error e => Except.error e
      | Except.ok rs => Except.ok (p.results ++ rs)) =
        Except.ok ((p :: q :: ps).map ApiPage.results).flatten
    rw [ih]
    simp

theorem get_from_api_error {π α : Type} :
    ∀ (good : List (ApiPage α)) (url : String) (params : Option π)
      (p : ApiPage α) (rest : List (ApiPage α)),
      (∀ q ∈ good, raisesStatus q.status = false ∧ truthy q.next = true) →
      raisesStatus p.status = true →
      (get_from_api url params (good ++ p :: rest)).2 = Except.error p.status
  | [], url, params, p, rest, _, hp => by
    rw [List.nil_append, get_from_api_cons, if_pos hp]
  | q :: good, url, params, p, rest, hgood, hp => by
    have hq := hgood q (List.mem_cons_self _ _)
    have ih := get_from_api_error good (q.next.getD "") (none : Option π) p rest
      (fun r hr => hgood r (List.mem_cons_of_mem _ hr)) hp
    rw [List.cons_append, get_from_api_cons, if_neg (by simp [hq.1]), if_pos hq.2]
    show (match (get_from_api (q.next.getD "") (none : Option π) (good ++ p :: rest)).2 with
      | Except.error e => Except.error e
      | Except.ok rs => Except.ok (q.results ++ rs)) = Except.error p.status
    rw [ih]

theorem get_from_api_trace_none {π α : Type} :
    ∀ (pages : List (ApiPage α)) (url : String),
      ∀ r ∈ (get_from_api url (none : Option π) pages).1, r.params = none
  | [], url => by
    intro r hr
    have : r = { url := url, params := none } := by simpa [get_from_api] using hr
    simp [this]
  | p :: ps, url => by
    intro r hr
    rw [get_from_api_cons] at hr
    by_cases hs : raisesStatus p.status
    · rw [if_pos hs] at hr
      have : r = { url := url, params := none } := by simpa using hr
      simp [this]
    · rw [if_neg hs] at hr
      by_cases hn : truthy p.next
      · rw [if_pos hn] at hr
        rcases List.mem_cons.mp hr with hr' | hr'
        · simp [hr']
        · exact get_from_api_trace_none ps (p.next.getD "") r hr'
      · rw [if_neg hn] at hr
        have : r = { url := url, params := none } := by simpa using hr
        simp [this]

theorem get_from_api_trace_shape {π α : Type} (url : String) (params : Option π)
    (pages : List (ApiPage α)) :
    ∃ rest, (get_from_api url params pages).1 = { url := url, params := params } :: rest ∧
      ∀ r ∈ rest, r.params = none := by
  cases pages with
  | nil => exact ⟨[], rfl, by simp⟩
  | cons p ps =>
    rw [get_from_api_cons]
    by_cases hs : raisesStatus p.status
    · exact ⟨[], by rw [if_pos hs], by simp⟩
    · by_cases hn : truthy p.next
      · refine ⟨(get_from_api (p.next.getD "") (none : Option π) ps).1, ?_, ?_⟩
        · rw [if_neg hs, if_pos hn]
        · exact get_from_api_trace_none ps (p.next.getD "")
      · exact ⟨[], by rw [if_neg hs, if_neg hn], by simp⟩

theorem mem_reindex_some {κ ρ : Type} [DecidableEq κ] {dense : List κ} {tbl : List (κ × ρ)}
    {k : κ} {row : ρ} (h : (k, Option.some row) ∈ reindex dense tbl) : (k, row) ∈ tbl := by
  unfold reindex at h
  rcases List.mem_map.mp h with ⟨k', hk', heq⟩
  have hkk : k' = k := congrArg Prod.fst heq
  subst hkk
  have hmap : (tbl.find? (fun kv => decide (kv.1 = k'))).map Prod.snd = some row :=
    congrArg Prod.snd heq
  rcases hfind : tbl.find? (fun kv => decide (kv.1 = k')) with _ | kv
  · rw [hfind] at hmap
    simp at hmap
  · rw [hfind] at hmap
    simp only [Option.map_some', Option.some.injEq] at hmap
    have hk1 : kv.1 = k' := by simpa using List.find?_some hfind
    have hkv : kv = (k', row) := by rw [← hk1, ← hmap]
    exact hkv ▸ List.mem_of_find?_eq_some hfind

/-- Claim C1 (counterexample): two records share the composite key
(hour 0, device 1, up); the first has the larger upload timestamp (40), yet
de-duplication keeps the second (upload timestamp 10) — the last-seen record,
not the one with the maximum upload timestamp. -/
theorem C1_counterexample :
    dedupKeepLast (bandwidthKeyed
      [{ id := 1, nanopi := 1, direction := Direction.up, bandwidth := 10, upload_date := 40 },
       { id := 2, nanopi := 1, direction := Direction.up, bandwidth := 20, upload_date := 10 }]) =
      [((0, 1, Direction.up), { id := 2, bandwidth := 20, upload_date := 10 })] ∧
    ((0, 1, Direction.up), ({ id := 1, bandwidth := 10, upload_date := 40 } : BandwidthRow)) ∈
      bandwidthKeyed
        [{ id := 1, nanopi := 1, direction := Direction.up, bandwidth := 10, upload_date := 40 },
         { id := 2, nanopi := 1, direction := Direction.up, bandwidth := 20, upload_date := 10 }] ∧
    (10 : Nat) < 40 := by decide

/-- Claim C1 (amended): for every record list, the table builders'
de-duplication step keeps, among all records sharing a composite key, exactly
the last one in original order (last-seen wins), regardless of upload
timestamps: a row survives iff it is the first hit when searching the reversed
keyed table for its key.  Stated for the bandwidth, jitter and latency
builders. -/
theorem C1_dedup_last_seen_wins :
    (∀ (records : List BandwidthRecord) (kv : BKey × BandwidthRow),
      kv ∈ dedupKeepLast (bandwidthKeyed records) ↔
        (bandwidthKeyed records).reverse.find? (fun x => decide (x.1 = kv.1)) = some kv) ∧
    (∀ (records : List JitterRecord) (kv : NKey × JitterRow),
      kv ∈ dedupKeepLast (jitterKeyed records) ↔
        (jitterKeyed records).reverse.find? (fun x => decide (x.1 = kv.1)) = some kv) ∧
    (∀ (records : List LatencyRecord) (kv : NKey × LatencyRow),
      kv ∈ dedupKeepLast (latencyScaled (latencyKeyed records)) ↔
        (latencyScaled (latencyKeyed records)).reverse.find?
          (fun x => decide (x.1 = kv.1)) = some kv) :=
  ⟨fun records kv => mem_dedupKeepLast_iff (bandwidthKeyed records) kv,
   fun records kv => mem_dedupKeepLast_iff (jitterKeyed records) kv,
   fun records kv => mem_dedupKeepLast_iff (latencyScaled (latencyKeyed records)) kv⟩

/-- Claim C2 (counterexample): with two records whose hours arrive out of
order (first record at hour 60, second at hour 0), the builder's range runs
from the FIRST record's hour (60) to the LAST record's hour (0) and is empty,
so the table's key set is empty — not the cartesian product over the
min-to-max hourly range, which has four keys. -/
theorem C2_counterexample :
    get_bandwidth_dataframe
      [{ id := 1, nanopi := 1, direction := Direction.up, bandwidth := 10, upload_date := 60 },
       { id := 2, nanopi := 1, direction := Direction.up, bandwidth := 20, upload_date := 0 }] =
      some [] ∧
    specMinMaxIndex
      [{ id := 1, nanopi := 1, direction := Direction.up, bandwidth := 10, upload_date := 60 },
       { id := 2, nanopi := 1, direction := Direction.up, bandwidth := 20, upload_date := 0 }] =
      [(0, 1, Direction.up), (0, 1, Direction.down),
       (60, 1, Direction.up), (60, 1, Direction.down)] := by decide

/-- Claim C2 (amended): for every non-empty record list, the dense-reindexed
bandwidth table's key sequence equals exactly the cartesian product of
{every hour, at hourly step, from the FIRST record's hour-floored timestamp to
the LAST record's hour-floored timestamp (empty when the first exceeds the
last)} × {distinct device ids observed} × {up, down}; its keys are pairwise
distinct, and its cardinality is the product of the three set sizes. -/
theorem C2_dense_index_product (r0 : BandwidthRecord) (rest : List BandwidthRecord)
    (t : List (BKey × Option BandwidthRow))
    (h : get_bandwidth_dataframe (r0 :: rest) = some t) :
    t.map Prod.fst =
      (hourRange (bandwidthStart r0) (bandwidthStop r0 rest)) ×ˢ
        ((bandwidthDevices (r0 :: rest)) ×ˢ directions) ∧
    (t.map Prod.fst).Nodup ∧
    t.length = (hourRange (bandwidthStart r0) (bandwidthStop r0 rest)).length *
      ((bandwidthDevices (r0 :: rest)).length * directions.length) := by
  have ht : t = reindex (bandwidthDenseIndex r0 rest)
      (dedupKeepLast (bandwidthKeyed (r0 :: rest))) :=
    (Option.some.inj h).symm
  subst ht
  refine ⟨map_fst_reindex _ _, ?_, ?_⟩
  · rw [map_fst_reindex]
    unfold bandwidthDenseIndex
    exact (nodup_hourRange _ _).product ((List.nodup_dedup _).product (by decide))
  · rw [length_reindex]
    unfold bandwidthDenseIndex
    rw [List.length_product, List.length_product]

/-- Witness for C2 at a one-record input: the dense key sequence is the
product {hour 0} × {device 1} × {up, down}, with distinct keys and
cardinality 1 × 1 × 2. -/
theorem C2_witness :
    get_bandwidth_dataframe
      [{ id := 1, nanopi := 1, direction := Direction.up, bandwidth := 5, upload_date := 0 }] =
      some [((0, 1, Direction.up), some { id := 1, bandwidth := 5, upload_date := 0 }),
            ((0, 1, Direction.down), none)] ∧
    (([((0, 1, Direction.up), some { id := 1, bandwidth := 5, upload_date := 0 }),
       ((0, 1, Direction.down), none)] : List (BKey × Option BandwidthRow)).map Prod.fst =
      (hourRange
          (bandwidthStart
            { id := 1, nanopi := 1, direction := Direction.up, bandwidth := 5, upload_date := 0 })
          (bandwidthStop
            { id := 1, nanopi := 1, direction := Direction.up, bandwidth := 5, upload_date := 0 }
            [])) ×ˢ
        ((bandwidthDevices
            [{ id := 1, nanopi := 1, direction := Direction.up, bandwidth := 5,
               upload_date := 0 }]) ×ˢ directions) ∧
      (([((0, 1, Direction.up), some { id := 1, bandwidth := 5, upload_date := 0 }),
         ((0, 1, Direction.down), none)] : List (BKey × Option BandwidthRow)).map Prod.fst).Nodup ∧
      ([((0, 1, Direction.up), some { id := 1, bandwidth := 5, upload_date := 0 }),
        ((0, 1, Direction.down), none)] : List (BKey × Option BandwidthRow)).length =
        (hourRange
            (bandwidthStart
              { id := 1, nanopi := 1, direction := Direction.up, bandwidth := 5, upload_date := 0 })
            (bandwidthStop
              { id := 1, nanopi := 1, direction := Direction.up, bandwidth := 5, upload_date := 0 }
              [])).length *
          ((bandwidthDevices
              [{ id := 1, nanopi := 1, direction := Direction.up, bandwidth := 5,
                 upload_date := 0 }]).length * directions.length)) :=
  ⟨by decide,
   C2_dense_index_product
     { id := 1, nanopi := 1, direction := Direction.up, bandwidth := 5, upload_date := 0 } []
     [((0, 1, Direction.up), some { id := 1, bandwidth := 5, upload_date := 0 }),
      ((0, 1, Direction.down), none)] (by decide)⟩

/-- Claim C3 (counterexample): with the two out-of-order records of the C2
counterexample, the built table is empty, so filtering it to non-missing
entries yields nothing, while the de-duplicated pre-reindex table still has
its two records — the round trip drops them. -/
theorem C3_counterexample :
    (get_bandwidth_dataframe
      [{ id := 1, nanopi := 1, direction := Direction.up, bandwidth := 10, upload_date := 60 },
       { id := 2, nanopi := 1, direction := Direction.up, bandwidth := 20, upload_date := 0 }]).map
      nonMissing = some [] ∧
    dedupKeepLast (bandwidthKeyed
      [{ id := 1, nanopi := 1, direction := Direction.up, bandwidth := 10, upload_date := 60 },
       { id := 2, nanopi := 1, direction := Direction.up, bandwidth := 20, upload_date := 0 }]) =
      [((60, 1, Direction.up), { id := 1, bandwidth := 10, upload_date := 60 }),
       ((0, 1, Direction.up), { id := 2, bandwidth := 20, upload_date := 0 })] := by decide

/-- Claim C3 (amended): whenever every record's hour-floored timestamp lies
between the first record's and the last record's hour-floored timestamps (in
particular whenever the records arrive sorted by time), building the
bandwidth table and filtering it to its non-missing entries reproduces
exactly the de-duplicated pre-reindex record set: a keyed row is in the
filtered table iff it survived de-duplication. -/
theorem C3_round_trip (r0 : BandwidthRecord) (rest : List BandwidthRecord)
    (t : List (BKey × Option BandwidthRow))
    (h : get_bandwidth_dataframe (r0 :: rest) = some t)
    (hspan : ∀ r ∈ r0 :: rest,
      bandwidthStart r0 ≤ floorHour r.upload_date ∧
        floorHour r.upload_date ≤ bandwidthStop r0 rest)
    (kv : BKey × BandwidthRow) :
    kv ∈ nonMissing t ↔ kv ∈ dedupKeepLast (bandwidthKeyed (r0 :: rest)) := by
  have ht : t = reindex (bandwidthDenseIndex r0 rest)
      (dedupKeepLast (bandwidthKeyed (r0 :: rest))) :=
    (Option.some.inj h).symm
  subst ht
  rw [mem_nonMissing_reindex]
  constructor
  · rintro ⟨_, hfind⟩
    exact List.mem_of_find?_eq_some hfind
  · intro hmem
    refine ⟨?_, (find?_key_eq_some_iff (nodup_keys_dedupKeepLast _)).mpr ⟨hmem, rfl⟩⟩
    have hkeyed : kv ∈ bandwidthKeyed (r0 :: rest) := mem_of_mem_dedupKeepLast hmem
    rcases List.mem_map.mp hkeyed with ⟨r, hr, heq⟩
    have h1 : kv.1 = (floorHour r.upload_date, r.nanopi, r.direction) :=
      (congrArg Prod.fst heq).symm
    rw [h1]
    unfold bandwidthDenseIndex
    refine List.mem_product.mpr ⟨?_, List.mem_product.mpr ⟨?_, ?_⟩⟩
    · refine mem_hourRange_of (hspan r hr).1 (hspan r hr).2
        ⟨r.upload_date / 60 - r0.upload_date / 60, ?_⟩
      unfold bandwidthStart floorHour
      omega
    · exact List.mem_dedup.mpr (List.mem_map.mpr ⟨r, hr, rfl⟩)
    · cases hd : r.direction <;> simp [directions]

/-- Witness for C3 at the sorted two-record scenario input: the surviving row
is in the non-missing filter of the built table iff it is in the
de-duplicated table (both sides hold). -/
theorem C3_witness :
    (((0, 1, Direction.up), ({ id := 2, bandwidth := 80, upload_date := 30 } : BandwidthRow)) ∈
        nonMissing [((0, 1, Direction.up), some { id := 2, bandwidth := 80, upload_date := 30 }),
                    ((0, 1, Direction.down), none)] ↔
      ((0, 1, Direction.up), ({ id := 2, bandwidth := 80, upload_date := 30 } : BandwidthRow)) ∈
        dedupKeepLast (bandwidthKeyed
          [{ id := 1, nanopi := 1, direction := Direction.up, bandwidth := 50, upload_date := 0 },
           { id := 2, nanopi := 1, direction := Direction.up, bandwidth := 80,
             upload_date := 30 }])) :=
  C3_round_trip
    { id := 1, nanopi := 1, direction := Direction.up, bandwidth := 50, upload_date := 0 }
    [{ id := 2, nanopi := 1, direction := Direction.up, bandwidth := 80, upload_date := 30 }]
    [((0, 1, Direction.up), some { id := 2, bandwidth := 80, upload_date := 30 }),
     ((0, 1, Direction.down), none)] (by decide) (by decide)
    ((0, 1, Direction.up), { id := 2, bandwidth := 80, upload_date := 30 })

/-- Claim C4 (confirmed): run against any well-formed sequence of served
pages whose statuses all succeed, `get_from_api` returns the concatenation of
every page's `results` array in arrival order, following `next` until it is
falsy; and as soon as any reached page's response status raises, it fails
with that HTTP status (no retry) instead of returning a value. -/
theorem C4_pagination (π α : Type) (url : String) (params : Option π)
    (pages : List (ApiPage α)) :
    (wellFormed pages = true → (∀ p ∈ pages, raisesStatus p.status = false) →
      (get_from_api url params pages).2 = Except.ok (pages.map ApiPage.results).flatten) ∧
    (∀ (good : List (ApiPage α)) (p : ApiPage α) (rest : List (ApiPage α)),
      pages = good ++ p :: rest →
      (∀ q ∈ good, raisesStatus q.status = false ∧ truthy q.next = true) →
      raisesStatus p.status = true →
      (get_from_api url params pages).2 = Except.error p.status) :=
  ⟨fun hwf hok => get_from_api_ok pages url params hwf hok,
   fun good p rest hsplit hgood hp =>
     hsplit ▸ get_from_api_error good url params p rest hgood hp⟩

/-- Witness for C4: a two-page fetch concatenates `[1, 2]` and `[3]`; a fetch
whose first page answers 404 fails with error 404. -/
theorem C4_witness :
    (get_from_api "u1" (some 0)
      [({ status := 200, results := [1, 2], next := some "u2" } : ApiPage Nat),
       { status := 200, results := [3], next := none }]).2 = Except.ok [1, 2, 3] ∧
    (get_from_api "u1" (some (0 : Nat))
      [({ status := 404, results := [], next := none } : ApiPage Nat)]).2 =
      Except.error 404 := by
  constructor
  · exact (C4_pagination Nat Nat "u1" (some 0)
      [{ status := 200, results := [1, 2], next := some "u2" },
       { status := 200, results := [3], next := none }]).1 (by decide) (by decide)
  · exact (C4_pagination Nat Nat "u1" (some 0)
      [{ status := 404, results := [], next := none }]).2 []
      { status := 404, results := [], next := none } [] rfl (by simp) (by decide)

/-- Claim C5 (counterexample): a present entry whose bandwidth value is 0 is
rendered `false` ("missing") by the coverage grid, because `fillna(False)`
followed by `bool(x)` maps the float `0.0` to `False`; so "present iff
non-missing" fails at this table. -/
theorem C5_counterexample :
    get_bandwidth_dataframe
      [{ id := 1, nanopi := 1, direction := Direction.up, bandwidth := 0, upload_date := 0 }] =
      some [((0, 1, Direction.up), some { id := 1, bandwidth := 0, upload_date := 0 }),
            ((0, 1, Direction.down), none)] ∧
    plot_coverage [((0, 1, Direction.up), some { id := 1, bandwidth := 0, upload_date := 0 }),
                   ((0, 1, Direction.down), none)] =
      [((0, 1, Direction.up), false), ((0, 1, Direction.down), false)] := by decide

/-- Claim C5 (amended): for every dense bandwidth table and every entry
(key, value) in it, the coverage grid renders that key's cell as
`coverageCell value`, and the cell is "present" (`true`) iff the entry is
non-missing AND its bandwidth value is nonzero; otherwise it is "missing". -/
theorem C5_coverage (table : List (BKey × Option BandwidthRow)) (k : BKey)
    (o : Option BandwidthRow) (h : (k, o) ∈ table) :
    (k, coverageCell o) ∈ plot_coverage table ∧
      (coverageCell o = true ↔ ∃ row, o = some row ∧ row.bandwidth ≠ 0) := by
  constructor
  · exact List.mem_map.mpr ⟨(k, o), h, rfl⟩
  · cases o with
    | none => simp [coverageCell]
    | some row => simp [coverageCell]

/-- Witness for C5: in a one-entry table holding bandwidth 80, the cell is
rendered and it is `true` because the entry is present with nonzero value. -/
theorem C5_witness :
    (((0, 1, Direction.up) : BKey),
        coverageCell (some { id := 2, bandwidth := 80, upload_date := 30 })) ∈
      plot_coverage
        [((0, 1, Direction.up), some { id := 2, bandwidth := 80, upload_date := 30 })] ∧
    (coverageCell (some { id := 2, bandwidth := 80, upload_date := 30 }) = true ↔
      ∃ row, (some { id := 2, bandwidth := 80, upload_date := 30 } : Option BandwidthRow) =
          some row ∧ row.bandwidth ≠ 0) :=
  C5_coverage [((0, 1, Direction.up), some { id := 2, bandwidth := 80, upload_date := 30 })]
    (0, 1, Direction.up) (some { id := 2, bandwidth := 80, upload_date := 30 }) (by decide)

/-- Claim C6 (confirmed): every latency value present in the built latency
table equals the corresponding raw record's latency divided by 1000 (and the
row keeps that record's id and upload date). -/
theorem C6_latency_rescale (records : List LatencyRecord)
    (t : List (NKey × Option LatencyRow)) (h : get_latency_dataframe records = some t)
    (k : NKey) (row : LatencyRow) (hmem : (k, some row) ∈ t) :
    ∃ r ∈ records, row.latency = r.latency / 1000 ∧ row.id = r.id ∧
      row.upload_date = r.upload_date := by
  cases records with
  | nil => simp [get_latency_dataframe] at h
  | cons r0 rest =>
    have ht : t = reindex
        ((hourRange (floorHour r0.upload_date) (floorHour (rest.getLastD r0).upload_date)) ×ˢ
          latencyDevices (r0 :: rest))
        (dedupKeepLast (latencyScaled (latencyKeyed (r0 :: rest)))) :=
      (Option.some.inj h).symm
    subst ht
    have hdedup : (k, row) ∈ dedupKeepLast (latencyScaled (latencyKeyed (r0 :: rest))) :=
      mem_reindex_some hmem
    have hscaled : (k, row) ∈ latencyScaled (latencyKeyed (r0 :: rest)) :=
      mem_of_mem_dedupKeepLast hdedup
    have hmap : (k, row) ∈ (r0 :: rest).map (fun r =>
        ((floorHour r.upload_date, r.nanopi),
         ({ id := r.id, latency := r.latency / 1000, upload_date := r.upload_date } :
           LatencyRow))) := by
      simpa [latencyScaled, latencyKeyed, List.map_map, Function.comp_def] using hscaled
    rcases List.mem_map.mp hmap with ⟨r, hr, heq⟩
    have hrow : row = { id := r.id, latency := r.latency / 1000, upload_date := r.upload_date } :=
      (congrArg Prod.snd heq).symm
    subst hrow
    exact ⟨r, hr, rfl, rfl, rfl⟩

/-- Witness for C6: a single record with raw latency 2000 yields the table
row whose latency is 2000/1000. -/
theorem C6_witness :
    ∃ r ∈ [({ id := 1, nanopi := 1, latency := 2000, upload_date := 0 } : LatencyRecord)],
      ({ id := 1, latency := 2000 / 1000, upload_date := 0 } : LatencyRow).latency =
        r.latency / 1000 ∧
      ({ id := 1, latency := 2000 / 1000, upload_date := 0 } : LatencyRow).id = r.id ∧
      ({ id := 1, latency := 2000 / 1000, upload_date := 0 } : LatencyRow).upload_date =
        r.upload_date :=
  C6_latency_rescale [{ id := 1, nanopi := 1, latency := 2000, upload_date := 0 }]
    [((0, 1), some { id := 1, latency := 2000 / 1000, upload_date := 0 })] rfl
    (0, 1) { id := 1, latency := 2000 / 1000, upload_date := 0 }
    (List.mem_singleton_self _)

/-- Claim C7 (confirmed): for the two-record scenario — device 1, direction
up, upload dates at minutes 0 and 30 of hour 2023-01-01T00:00 (minute 0),
bandwidths 50 then 80 — the built table has exactly one entry for the key
(hour 0, device 1, up), and its bandwidth is 80 (the later upload wins). -/
theorem C7_scenario :
    (get_bandwidth_dataframe
      [{ id := 1, nanopi := 1, direction := Direction.up, bandwidth := 50, upload_date := 0 },
       { id := 2, nanopi := 1, direction := Direction.up, bandwidth := 80,
         upload_date := 30 }]).map
      (fun t => t.filter (fun kv => decide (kv.1 = (0, 1, Direction.up)))) =
    some [((0, 1, Direction.up), some { id := 2, bandwidth := 80, upload_date := 30 })] := by
  decide

/-- Claim C8 (confirmed): on the empty record list the bandwidth, jitter and
latency table builders fail (the original indexes into an empty index)
rather than returning an empty table. -/
theorem C8_empty_fails :
    get_bandwidth_dataframe [] = none ∧ get_jitter_dataframe [] = none ∧
      get_latency_dataframe [] = none :=
  ⟨rfl, rfl, rfl⟩

/-- Claim C9 (counterexample): a ping record observed at minute 30 is keyed
by timestamp 30 itself, not by its hour-floor 0 — the ping builder does NOT
hour-floor its designated timestamp field. -/
theorem C9_counterexample :
    (get_ping_dataframe
      [{ id := 1, nanopi := 1, state := "down", upload_date := 0, time := 30 }]).map Prod.fst =
      [(30, 1)] ∧ floorHour 30 = 0 ∧ (30 : Nat) ≠ 0 := by decide

/-- Claim C9 (amended): for every ping record list, each output row is keyed
by the timezone-converted observation time taken AS IS (no hour-flooring)
together with the device id, and there is no reindexing step: the table has
exactly one row per input record, in input order. -/
theorem C9_ping_keys (records : List PingRecord) :
    (get_ping_dataframe records).map Prod.fst =
      records.map (fun r => (tzConvert r.time, r.nanopi)) ∧
    (get_ping_dataframe records).length = records.length := by
  constructor
  · simp [get_ping_dataframe]
  · simp [get_ping_dataframe]

/-- Claim C10 (confirmed): in every paginated fetch, the first request
carries the caller-supplied query parameters and every follow-up request is
issued without them. -/
theorem C10_params_first_only (π α : Type) (url : String) (qp : π)
    (pages : List (ApiPage α)) :
    ∃ rest, (get_from_api url (some qp) pages).1 =
        { url := url, params := some qp } :: rest ∧ ∀ r ∈ rest, r.params = none :=
  get_from_api_trace_shape url (some qp) pages

end LivingLab
